import Mathlib

/-!
Verification development for the obsidian vimrc configuration pipeline.

The definitions below are a shallow embedding of the TypeScript sources:
the vimrc parser (services/VimrcParser), the mapping handler
(handlers/MappingHandler), the mapping store (stores/MappingStore), the
command registry (registry/CommandRegistry), the mapping applier
(appliers/MappingApplier), the vim adapter queue and readiness wait
(services/VimAdapter), and the load coordinator (services/VimrcLoader).

JavaScript strings are modelled as Lean strings, JavaScript Map objects as
insertion-ordered association lists, thrown exceptions as Except values,
and asynchronous availability probes as boolean schedules indexed by probe
count.  All definitions use structural or fuel-bounded recursion so that
concrete runs reduce inside the kernel.
-/

namespace Vimrc

/-- Character constant for the double quote, written by code point to keep
string literals simple. -/
def dquote : Char := Char.ofNat 34

/-- Character constant for the single quote. -/
def squote : Char := Char.ofNat 39

/-- Trim of a character list: drop leading and trailing whitespace.  Models
the JavaScript trim() on the whitespace characters that occur in vimrc
lines. -/
def trimList (l : List Char) : List Char :=
  ((l.dropWhile Char.isWhitespace).reverse.dropWhile Char.isWhitespace).reverse

/-- Trim of a string, via trimList. -/
def trimStr (s : String) : String :=
  String.mk (trimList s.data)

/-- Split a character list at every occurrence of the separator character,
keeping empty segments.  Models the JavaScript split of a string on a
single-character separator. -/
def splitOnCharAux (sep : Char) : List Char → List Char → List (List Char)
  | [], acc => [acc.reverse]
  | c :: rest, acc =>
    if c == sep then acc.reverse :: splitOnCharAux sep rest []
    else splitOnCharAux sep rest (c :: acc)

/-- Split a character list on a separator character. -/
def splitOnChar (sep : Char) (l : List Char) : List (List Char) :=
  splitOnCharAux sep l []

/-- Whitespace tokenisation with an explicit fuel argument; the fuel is
always instantiated with the length of the list, which suffices because
every step consumes at least one character. -/
def tokensWSAux : Nat → List Char → List (List Char)
  | 0, _ => []
  | _ + 1, [] => []
  | fuel + 1, c :: rest =>
    if c.isWhitespace then tokensWSAux fuel rest
    else
      ((c :: rest).takeWhile (fun d => !d.isWhitespace)) ::
        tokensWSAux fuel ((c :: rest).dropWhile (fun d => !d.isWhitespace))

/-- Whitespace-split of a string into its non-empty tokens.  Models the
JavaScript split on a whitespace run regex as it is used in the parser,
where the input has already been trimmed. -/
def splitWhitespace (s : String) : List String :=
  (tokensWSAux s.data.length s.data).map String.mk

/-- Join a list of strings with single spaces.  Models the JavaScript
array join with a space separator. -/
def joinSpace : List String → String
  | [] => ""
  | [s] => s
  | s :: rest => s ++ " " ++ joinSpace rest

/-- Global replacement of a pattern by a replacement in a character list,
scanning left to right without rescanning replaced text; this is the
semantics of a global regex replace on a literal pattern.  Fuel-bounded
with fuel equal to the input length, which suffices because every step
consumes at least one input character. -/
def replaceAllAux (pat rep : List Char) : Nat → List Char → List Char
  | 0, l => l
  | _ + 1, [] => []
  | fuel + 1, c :: rest =>
    if pat ≠ [] ∧ (c :: rest).take pat.length = pat then
      rep ++ replaceAllAux pat rep fuel ((c :: rest).drop pat.length)
    else c :: replaceAllAux pat rep fuel rest

/-- Global replacement of a literal pattern inside a string. -/
def replaceAllStr (pat rep s : String) : String :=
  String.mk (replaceAllAux pat.data rep.data s.data.length s.data)

/-- The parser's variable table: a JavaScript Map from names to values,
modelled as an insertion-ordered association list. -/
abbrev Vars := List (String × String)

/-- Lookup in an insertion-ordered association list, returning the first
binding, exactly as a JavaScript Map get. -/
def alistGet {α : Type} (l : List (String × α)) (k : String) : Option α :=
  (l.find? (fun p => p.1 == k)).map (fun p => p.2)

/-- Update in an insertion-ordered association list: replace the existing
binding in place if the key is present, otherwise append, exactly as a
JavaScript Map set. -/
def alistSet {α : Type} (l : List (String × α)) (k : String) (v : α) :
    List (String × α) :=
  if l.any (fun p => p.1 == k) then
    l.map (fun p => if p.1 == k then (k, v) else p)
  else l ++ [(k, v)]

/-- Deletion from an insertion-ordered association list, exactly as a
JavaScript Map delete of the given key. -/
def alistDel {α : Type} (l : List (String × α)) (k : String) :
    List (String × α) :=
  l.filter (fun p => p.1 != k)

/-- Command keywords recognised by the parser, from the CommandType enum;
COMMENT and UNKNOWN are the parser-internal kinds. -/
inductive CommandType
  | MAP | NMAP | IMAP | VMAP | OMAP
  | NOREMAP | NNOREMAP | INOREMAP | VNOREMAP | ONOREMAP
  | OBCOMMAND | EXMAP
  | OBMAP | NOBMAP | IOBMAP | VOBMAP
  | UNMAP | NUNMAP | IUNMAP | VUNMAP
  | LET | COMMENT | UNKNOWN
  deriving DecidableEq, Repr

/-- String value of a command type, matching the TypeScript enum values. -/
def CommandType.value : CommandType → String
  | .MAP => "map" | .NMAP => "nmap" | .IMAP => "imap" | .VMAP => "vmap"
  | .OMAP => "omap"
  | .NOREMAP => "noremap" | .NNOREMAP => "nnoremap" | .INOREMAP => "inoremap"
  | .VNOREMAP => "vnoremap" | .ONOREMAP => "onoremap"
  | .OBCOMMAND => "obcommand" | .EXMAP => "exmap"
  | .OBMAP => "obmap" | .NOBMAP => "nobmap" | .IOBMAP => "iobmap"
  | .VOBMAP => "vobmap"
  | .UNMAP => "unmap" | .NUNMAP => "nunmap" | .IUNMAP => "iunmap"
  | .VUNMAP => "vunmap"
  | .LET => "let" | .COMMENT => "comment" | .UNKNOWN => "unknown"

/-- A parsed command record, from the ParsedCommand interface. -/
structure ParsedCommand where
  type : CommandType
  args : List String
  lineNumber : Nat
  raw : String
  deriving DecidableEq, Repr

/-- A parse error or warning entry, from the ParseError and ParseWarning
interfaces, which have the same shape. -/
structure ParseIssue where
  lineNumber : Nat
  message : String
  raw : String
  deriving DecidableEq, Repr

/-- Result of a parse invocation, from the ParseResult interface. -/
structure ParseResult where
  commands : List ParsedCommand
  errors : List ParseIssue
  warnings : List ParseIssue
  deriving DecidableEq, Repr

/-- Test whether the trimmed prefix to the left of the scan position ends
with an equals sign.  The scan keeps the prefix reversed, so this drops
trailing whitespace and inspects the last meaningful character; it models
the substring-trim-endsWith test of removeInlineComment. -/
def endsWithEq (prefixRev : List Char) : Bool :=
  match prefixRev.dropWhile (fun c => c.isWhitespace) with
  | [] => false
  | c :: _ => c == '='

/-- Character scan of removeInlineComment: walks the line tracking whether
the position is inside a quoted string that opened directly after an
equals sign, and returns the index of the first comment-starting double
quote (one preceded by a space or tab outside such a string), if any.
The first argument is the reversed prefix of already-scanned characters,
so its length is the current index and its head is the previous
character. -/
def findCommentStart : List Char → List Char → Bool → Option Char → Option Nat
  | _, [], _, _ => none
  | prefixRev, c :: rest, inQuote, quoteChar =>
    if (c == dquote || c == squote) && !inQuote then
      if endsWithEq prefixRev then
        findCommentStart (c :: prefixRev) rest true (some c)
      else if c == dquote &&
          (prefixRev.head? == some ' ' || prefixRev.head? == some '\t') then
        some prefixRev.length
      else
        findCommentStart (c :: prefixRev) rest inQuote quoteChar
    else if some c == quoteChar && inQuote then
      findCommentStart (c :: prefixRev) rest false none
    else if !inQuote && c == dquote &&
        (prefixRev.head? == some ' ' || prefixRev.head? == some '\t') then
      some prefixRev.length
    else
      findCommentStart (c :: prefixRev) rest inQuote quoteChar

/-- Remove an inline comment from a line, from
VimrcParser.removeInlineComment: truncate at the first comment-starting
quote when its index is positive, then trim. -/
def removeInlineComment (line : String) : String :=
  match findCommentStart [] line.data false none with
  | some i => if i > 0 then trimStr (String.mk (line.data.take i)) else trimStr line
  | none => trimStr line

/-- Substitute every known variable into a piece of text, from
VimrcParser.substituteVariables: for each stored variable, every
occurrence of its name wrapped in angle brackets is replaced by its value.
The regex built there has only the global flag, so the match is
case-sensitive. -/
def substituteVariables (vars : Vars) (text : String) : String :=
  vars.foldl (fun res p => replaceAllStr ("<" ++ p.1 ++ ">") p.2 res) text

/-- Classify the first token of a line, from the keyword switch in
VimrcParser.parseLine, matching the uppercased token. -/
def commandTypeOf (cmd : String) : CommandType :=
  let u := String.mk (cmd.data.map Char.toUpper)
  if u == "MAP" then .MAP
  else if u == "NMAP" then .NMAP
  else if u == "IMAP" then .IMAP
  else if u == "VMAP" then .VMAP
  else if u == "OMAP" then .OMAP
  else if u == "NOREMAP" then .NOREMAP
  else if u == "NNOREMAP" then .NNOREMAP
  else if u == "INOREMAP" then .INOREMAP
  else if u == "VNOREMAP" then .VNOREMAP
  else if u == "ONOREMAP" then .ONOREMAP
  else if u == "OBCOMMAND" then .OBCOMMAND
  else if u == "EXMAP" then .EXMAP
  else if u == "OBMAP" then .OBMAP
  else if u == "NOBMAP" then .NOBMAP
  else if u == "IOBMAP" then .IOBMAP
  else if u == "VOBMAP" then .VOBMAP
  else if u == "UNMAP" then .UNMAP
  else if u == "NUNMAP" then .NUNMAP
  else if u == "IUNMAP" then .IUNMAP
  else if u == "VUNMAP" then .VUNMAP
  else if u == "LET" then .LET
  else .UNKNOWN

/-- Parse a single line, from VimrcParser.parseLine: strip the inline
comment, return a comment-kind record when nothing remains, otherwise
split on whitespace, classify the first token, and substitute variables
into each remaining token independently. -/
def parseLine (vars : Vars) (line : String) (lineNumber : Nat) : ParsedCommand :=
  let cleanLine := removeInlineComment line
  if cleanLine.data = [] then
    { type := .COMMENT, args := [], lineNumber, raw := line }
  else
    let parts := splitWhitespace cleanLine
    let command := parts.headD ""
    let args := parts.tail
    { type := commandTypeOf command
      args := args.map (substituteVariables vars)
      lineNumber
      raw := line }

/-- JavaScript word characters, the regex w class. -/
def isWordChar (c : Char) : Bool := c.isAlphanum || c == '_'

/-- Matcher for the quoted assignment regex of processLetCommand: a word
name, optional whitespace, an equals sign, optional whitespace, then a
quote character, a greedy body, and a final quote character at the end of
the string. -/
def matchQuotedAssign (s : List Char) : Option (String × String) :=
  let name := s.takeWhile isWordChar
  let afterName := (s.dropWhile isWordChar).dropWhile (fun c => c.isWhitespace)
  match name, afterName with
  | [], _ => none
  | _, c :: afterEq =>
    if c == '=' then
      match afterEq.dropWhile (fun d => d.isWhitespace) with
      | q :: tail =>
        if q == dquote || q == squote then
          match tail.getLast? with
          | some lastc =>
            if lastc == dquote || lastc == squote then
              some (String.mk name, String.mk tail.dropLast)
            else none
          | none => none
        else none
      | [] => none
    else none
  | _, [] => none

/-- Matcher for the unquoted assignment regex of processLetCommand: a word
name, optional whitespace, an equals sign, optional whitespace, then a
non-empty run of non-whitespace characters reaching the end of the
string. -/
def matchUnquotedAssign (s : List Char) : Option (String × String) :=
  let name := s.takeWhile isWordChar
  let afterName := (s.dropWhile isWordChar).dropWhile (fun c => c.isWhitespace)
  match name, afterName with
  | [], _ => none
  | _, c :: afterEq =>
    if c == '=' then
      let value := afterEq.dropWhile (fun d => d.isWhitespace)
      if value ≠ [] ∧ value.all (fun d => !d.isWhitespace) then
        some (String.mk name, String.mk value)
      else none
    else none
  | _, [] => none

/-- Process a let command, from VimrcParser.processLetCommand: join the
arguments with spaces, try the quoted then the unquoted assignment
pattern, and on a match store the variable, additionally under the bare
key leader when the name is mapleader. -/
def processLetCommand (vars : Vars) (args : List String) : Vars :=
  if args.length == 0 then vars
  else
    let assignmentStr := joinSpace args
    let m :=
      match matchQuotedAssign assignmentStr.data with
      | some r => some r
      | none => matchUnquotedAssign assignmentStr.data
    match m with
    | some (varName, varValue) =>
      let vars1 := if varName == "mapleader" then alistSet vars "leader" varValue
                   else vars
      alistSet vars1 varName varValue
    | none => vars

/-- Accumulated state of one parse invocation: the parser's variable table
plus the command, error and warning lists being built. -/
structure ParseAcc where
  vars : Vars
  commands : List ParsedCommand
  errors : List ParseIssue
  warnings : List ParseIssue
  deriving DecidableEq, Repr

/-- One iteration of the parse loop, from VimrcParser.parse: trim the
line, skip blanks and full-line comments, otherwise parse it; comment
records are dropped, unknown records add a warning and are kept, let
records update the variable table.  All line processing here is total, so
the per-line catch of the source never fires and the error list stays as
it is. -/
def parseStep (acc : ParseAcc) (lineNumber : Nat) (rawLine : String) : ParseAcc :=
  let line := trimStr rawLine
  if line.data = [] then acc
  else if line.data.head? == some dquote then acc
  else
    let command := parseLine acc.vars line lineNumber
    if command.type = .COMMENT then acc
    else if command.type = .UNKNOWN then
      let cmdName := (splitWhitespace line).headD ""
      { acc with
        warnings := acc.warnings ++
          [{ lineNumber, message := "Unknown command: " ++ cmdName, raw := line }]
        commands := acc.commands ++ [command] }
    else if command.type = .LET then
      { acc with
        vars := processLetCommand acc.vars command.args
        commands := acc.commands ++ [command] }
    else
      { acc with commands := acc.commands ++ [command] }

/-- Parse a whole vimrc content, from VimrcParser.parse: split on
newlines and run the line loop with one-based line numbers, starting from
the parser's current variable table. -/
def parse (vars0 : Vars) (content : String) : ParseAcc :=
  let lines := (splitOnChar '\n' content.data).map String.mk
  lines.enum.foldl (fun acc p => parseStep acc (p.1 + 1) p.2)
    { vars := vars0, commands := [], errors := [], warnings := [] }

/-- Result view of a parse run, as the ParseResult the source returns. -/
def ParseAcc.result (acc : ParseAcc) : ParseResult :=
  { commands := acc.commands, errors := acc.errors, warnings := acc.warnings }

/-- Clear the parser's variable table, from VimrcParser.clearVariables. -/
def clearVariables (_vars : Vars) : Vars := []

/-- Vim editing modes, from the VimMode enum of the mapping types. -/
inductive VimMode
  | normal | insert | visual | operatorPending | all
  deriving DecidableEq, Repr

/-- String value of a mode, matching the TypeScript enum values. -/
def VimMode.value : VimMode → String
  | .normal => "normal"
  | .insert => "insert"
  | .visual => "visual"
  | .operatorPending => "operatorPending"
  | .all => "all"

/-- Status of a key mapping, from the MappingStatus enum. -/
inductive MappingStatus
  | pending | applied | failed | removed
  deriving DecidableEq, Repr

/-- A key mapping record with metadata, from the KeyMapping interface. -/
structure KeyMapping where
  id : String
  source : String
  target : String
  mode : VimMode
  recursive : Bool
  lineNumber : Nat
  createdAt : Nat
  appliedAt : Option Nat := none
  status : MappingStatus
  deriving DecidableEq, Repr

/-- Events emitted by the mapping store through the event bus. -/
inductive StoreEvent
  | added (m : KeyMapping)
  | removed (m : KeyMapping)
  | cleared (count : Nat)
  deriving DecidableEq, Repr

/-- State of the MappingStore: the id-keyed Map of mappings, modelled as
an insertion-ordered list that never holds two entries with the same id,
plus the trace of emitted events. -/
structure MappingStore where
  mappings : List KeyMapping
  events : List StoreEvent := []
  deriving Repr

/-- Insert or overwrite a mapping by id and emit an added event, from
MappingStore.add; the in-place overwrite models a JavaScript Map set on
an existing key. -/
def storeAdd (st : MappingStore) (m : KeyMapping) : MappingStore :=
  { mappings :=
      if st.mappings.any (fun x => x.id == m.id) then
        st.mappings.map (fun x => if x.id == m.id then m else x)
      else st.mappings ++ [m]
    events := st.events ++ [.added m] }

/-- Predicate selecting the mappings that removeBySource removes: the
source must match, and when a mode is given the mode must match it
exactly. -/
def removeMatches (source : String) (mode : Option VimMode) (m : KeyMapping) : Bool :=
  m.source == source &&
    (match mode with
     | none => true
     | some mo => m.mode == mo)

/-- Remove every mapping with the given source, filtered by mode when one
is given, from MappingStore.removeBySource: collect the matching entries,
delete each from the Map by id, emit one removed event per entry, and
return the count. -/
def storeRemoveBySource (st : MappingStore) (source : String)
    (mode : Option VimMode) : MappingStore × Nat :=
  let toRemove := st.mappings.filter (removeMatches source mode)
  let remaining :=
    toRemove.foldl (fun acc m => acc.filter (fun x => x.id != m.id)) st.mappings
  ({ mappings := remaining
     events := st.events ++ toRemove.map StoreEvent.removed }, toRemove.length)

/-- Empty the store and emit one cleared event carrying the prior count,
from MappingStore.clear. -/
def storeClear (st : MappingStore) : MappingStore :=
  { mappings := []
    events := st.events ++ [.cleared st.mappings.length] }

/-- Mapping command types handled by the MappingHandler, from the
MAPPING_COMMAND_TYPES constant. -/
def MAPPING_COMMAND_TYPES : List CommandType :=
  [.MAP, .NMAP, .IMAP, .VMAP, .NOREMAP, .NNOREMAP, .INOREMAP, .VNOREMAP,
   .UNMAP, .NUNMAP, .IUNMAP, .VUNMAP]

/-- Command types that create non-recursive mappings, from the
NON_RECURSIVE_COMMAND_TYPES constant. -/
def NON_RECURSIVE_COMMAND_TYPES : List CommandType :=
  [.NOREMAP, .NNOREMAP, .INOREMAP, .VNOREMAP]

/-- Unmap command types, from the UNMAP_COMMAND_TYPES constant. -/
def UNMAP_COMMAND_TYPES : List CommandType :=
  [.UNMAP, .NUNMAP, .IUNMAP, .VUNMAP]

/-- Mode implied by a mapping keyword, from
MappingHandler.getModeFromCommandType. -/
def getModeFromCommandType : CommandType → VimMode
  | .NMAP | .NNOREMAP => .normal
  | .IMAP | .INOREMAP => .insert
  | .VMAP | .VNOREMAP => .visual
  | _ => .all

/-- Mode implied by an unmap keyword, from
MappingHandler.getModeFromUnmapType. -/
def getModeFromUnmapType : CommandType → VimMode
  | .NUNMAP => .normal
  | .IUNMAP => .insert
  | .VUNMAP => .visual
  | _ => .all

/-- Whether a keyword creates a recursive mapping, from
MappingHandler.isRecursiveMapping. -/
def isRecursiveMapping (t : CommandType) : Bool :=
  !(NON_RECURSIVE_COMMAND_TYPES.contains t)

/-- Case-insensitive global replacement of the leader placeholder in a
character list, the semantics of the global case-insensitive leader regex
of MappingHandler.parseKeySequence.  Fuel-bounded with fuel equal to the
input length. -/
def replaceLeaderAux (rep : List Char) : Nat → List Char → List Char
  | 0, l => l
  | _ + 1, [] => []
  | fuel + 1, c :: rest =>
    if ((c :: rest).take 8).map Char.toLower =
        ['<', 'l', 'e', 'a', 'd', 'e', 'r', '>'] then
      rep ++ replaceLeaderAux rep fuel ((c :: rest).drop 8)
    else c :: replaceLeaderAux rep fuel rest

/-- Replace the leader placeholder, case-insensitively, with the tracked
leader key, from MappingHandler.parseKeySequence; all other angle-bracket
key tokens are left untouched. -/
def parseKeySequence (leaderKey : String) (keys : String) : String :=
  String.mk (replaceLeaderAux leaderKey.data keys.data.length keys.data)

/-- Mutable fields of the MappingHandler: the tracked leader key, whose
default is a single backslash, and the monotonic mapping id counter. -/
structure MappingHandlerState where
  leaderKey : String := "\\"
  mappingIdCounter : Nat := 0
  deriving DecidableEq, Repr

/-- Handle a regular mapping command, from MappingHandler.handleMapping:
the first argument is the left-hand side, all remaining arguments joined
by single spaces form the right-hand side, fewer than two effective
arguments is only a warning, and the created mapping (with
leader-substituted source and target, mode and recursiveness derived from
the keyword, pending status and a fresh id) is added to the store.  The
extra Nat argument is the creation timestamp. -/
def handleMapping (h : MappingHandlerState) (st : MappingStore)
    (cmd : ParsedCommand) (now : Nat) : MappingHandlerState × MappingStore :=
  let from_ := cmd.args.headD ""
  let to_ := joinSpace cmd.args.tail
  if from_ == "" || to_ == "" then (h, st)
  else
    let mode := getModeFromCommandType cmd.type
    let recursive := isRecursiveMapping cmd.type
    let counter := h.mappingIdCounter + 1
    let mapping : KeyMapping :=
      { id := "mapping_" ++ toString counter
        source := parseKeySequence h.leaderKey from_
        target := parseKeySequence h.leaderKey to_
        mode
        recursive
        lineNumber := cmd.lineNumber
        createdAt := now
        status := .pending }
    ({ h with mappingIdCounter := counter }, storeAdd st mapping)

/-- Handle an unmap command, from MappingHandler.handleUnmap: the single
key argument is leader-substituted and removed from the store via
removeBySource, scoped to the keyword's mode unless that mode is all, in
which case no mode filter is passed. -/
def handleUnmap (h : MappingHandlerState) (st : MappingStore)
    (cmd : ParsedCommand) : MappingStore :=
  let key := cmd.args.headD ""
  if key == "" then st
  else
    let parsedKey := parseKeySequence h.leaderKey key
    let mode := getModeFromUnmapType cmd.type
    (storeRemoveBySource st parsedKey
      (if mode = .all then none else some mode)).1

/-- Handle a mapping-family command, from MappingHandler.handle: unmap
keywords go to handleUnmap, the rest to handleMapping. -/
def mappingHandle (h : MappingHandlerState) (st : MappingStore)
    (cmd : ParsedCommand) (now : Nat) : MappingHandlerState × MappingStore :=
  if UNMAP_COMMAND_TYPES.contains cmd.type then (h, handleUnmap h st cmd)
  else handleMapping h st cmd now

/-- Calls the applier makes on the vim adapter. -/
inductive BackendCall
  | mapCall (lhs rhs : String) (mode : VimMode)
  | noremapCall (lhs rhs : String) (mode : VimMode)
  | unmapCall (lhs : String) (mode : VimMode)
  deriving DecidableEq, Repr

/-- Events the applier emits through the event bus. -/
inductive ApplierEvent
  | conflict (existing new_ : KeyMapping)
  | applied (m : KeyMapping)
  deriving DecidableEq, Repr

/-- State of the MappingApplier: the mode-and-source keyed tracking Map of
applied mappings, the trace of emitted events, and the trace of adapter
calls it made. -/
structure ApplierState where
  appliedMappings : List (String × KeyMapping) := []
  events : List ApplierEvent := []
  backendCalls : List BackendCall := []
  deriving Repr

/-- Key used for conflict tracking, from MappingApplier.getMappingKey: the
mode value and the source joined by a colon. -/
def getMappingKey (source : String) (mode : VimMode) : String :=
  mode.value ++ ":" ++ source

/-- Conflict check, from MappingApplier.checkConflict: when the tracking
table holds an entry for the same key with a different id, emit one
conflict event with override resolution; otherwise change nothing. -/
def checkConflict (st : ApplierState) (m : KeyMapping) : ApplierState :=
  match alistGet st.appliedMappings (getMappingKey m.source m.mode) with
  | some existing =>
    if existing.id != m.id then
      { st with events := st.events ++ [.conflict existing m] }
    else st
  | none => st

/-- Apply a single mapping, from MappingApplier.apply.  The adapter call
is dispatched to map or noremap depending on recursiveness; its outcome is
passed in as an Except because the applier is written against the adapter
interface.  On success the tracking entry is recorded, the status becomes
applied and the applied timestamp is stamped, and one applied event fires;
on a thrown backend error the status becomes failed and the error is
re-raised.  Returns the new applier state, the mapping with its mutated
fields, and the propagated outcome. -/
def applyMapping (st : ApplierState) (m : KeyMapping)
    (backendResult : Except String Unit) (now : Nat) :
    ApplierState × KeyMapping × Except String Unit :=
  let st1 := checkConflict st m
  let call := if m.recursive then BackendCall.mapCall m.source m.target m.mode
              else BackendCall.noremapCall m.source m.target m.mode
  let st2 := { st1 with backendCalls := st1.backendCalls ++ [call] }
  match backendResult with
  | .ok _ =>
    let key := getMappingKey m.source m.mode
    let m2 := { m with status := .applied, appliedAt := some now }
    ({ st2 with
        appliedMappings := alistSet st2.appliedMappings key m2
        events := st2.events ++ [.applied m2] }, m2, .ok ())
  | .error e => (st2, { m with status := .failed }, .error e)

/-- Unapply a single mapping, from MappingApplier.unapply.  The adapter
unmap call comes first; on success the tracking entry is deleted and the
status becomes removed; when the call throws, the catch still deletes the
tracking entry and then re-raises, leaving the status untouched. -/
def unapplyMapping (st : ApplierState) (m : KeyMapping)
    (backendResult : Except String Unit) :
    ApplierState × KeyMapping × Except String Unit :=
  let st1 :=
    { st with backendCalls := st.backendCalls ++ [BackendCall.unmapCall m.source m.mode] }
  let key := getMappingKey m.source m.mode
  match backendResult with
  | .ok _ =>
    ({ st1 with appliedMappings := alistDel st1.appliedMappings key },
     { m with status := .removed }, .ok ())
  | .error e =>
    ({ st1 with appliedMappings := alistDel st1.appliedMappings key },
     m, .error e)

/-- Unapply every tracked mapping and then clear the tracking table, from
MappingApplier.unapplyAll.  In the composed system the adapter never
throws from unmap (backend errors are swallowed inside the adapter), so
each unapply takes the ok branch. -/
def unapplyAll (st : ApplierState) : ApplierState :=
  let st1 := st.appliedMappings.foldl
    (fun acc p => (unapplyMapping acc p.2 (.ok ())).1) st
  { st1 with appliedMappings := [] }

/-- A registered command handler as the registry sees it: its declared
supported types, its canHandle filter, and the outcome of its handle
method, an Except so that a throwing handler is representable. -/
structure Handler where
  supportedTypes : List CommandType
  canHandle : ParsedCommand → Bool
  handleResult : ParsedCommand → Except String Unit

/-- Events the registry emits through the event bus. -/
inductive RegistryEvent
  | errorOccurred (message context : String)
  deriving DecidableEq, Repr

/-- State of the CommandRegistry: the type-keyed handler Map and, as the
observable effect channels, the emitted error events and the console
warnings. -/
structure RegistryState where
  handlers : List (CommandType × List Handler)
  events : List RegistryEvent := []
  logWarnings : List String := []

/-- Lookup in the type-keyed handler Map of the registry. -/
def handlersFor (l : List (CommandType × List Handler)) (t : CommandType) :
    Option (List Handler) :=
  (l.find? (fun p => p.1 == t)).map (fun p => p.2)

/-- Route a command, from CommandRegistry.route: look up the handlers
registered for the command's type, take the first whose canHandle accepts
the command, and run its handle inside a try/catch that converts a thrown
error into one error-occurred event whose context is the route context
string with the command kind; when no handler is found, log a warning and
return normally.  The function is total: a handler failure never
propagates out of route. -/
def route (st : RegistryState) (cmd : ParsedCommand) : RegistryState :=
  let hs := (handlersFor st.handlers cmd.type).getD []
  match hs.find? (fun h => h.canHandle cmd) with
  | some h =>
    match h.handleResult cmd with
    | .ok _ => st
    | .error e =>
      { st with events := st.events ++
          [.errorOccurred e ("CommandRegistry.route: " ++ cmd.type.value)] }
  | none =>
    { st with logWarnings := st.logWarnings ++
        ["No handler found for command type: " ++ cmd.type.value] }

/-- Operation type tags of the queueable adapter operations, from the
OperationType union of the VimAdapter. -/
inductive OperationType
  | map | noremap | unmap | mapclear
  | defineMotion | defineAction | defineOperator | defineEx | mapCommand
  deriving DecidableEq, Repr

/-- A queued adapter operation: type tag, argument tuple and timestamp,
from the QueuedOperation interface.  Arguments are optional strings
because a missing mode is passed as undefined; callback arguments are
modelled by their names. -/
structure QueuedOperation where
  type : OperationType
  args : List (Option String)
  timestamp : Nat
  deriving DecidableEq, Repr

/-- Default retry and readiness constants of the VimAdapter. -/
def DEFAULT_RETRY_INTERVAL : Nat := 100

/-- Default maximum retry count of the queue drain loop. -/
def DEFAULT_MAX_RETRIES : Nat := 50

/-- Default readiness timeout in milliseconds. -/
def DEFAULT_READY_TIMEOUT : Nat := 5000

/-- Mode string passed to the backend, from VimAdapter.modeToString: the
all mode and the unspecified mode are passed as undefined. -/
def modeToString : Option VimMode → Option String
  | some .normal => some "normal"
  | some .insert => some "insert"
  | some .visual => some "visual"
  | _ => none

/-- Mutable queue fields of the VimAdapter. -/
structure AdapterQueueState where
  operationQueue : List QueuedOperation := []
  isProcessingQueue : Bool := false
  deriving DecidableEq, Repr

/-- Enqueue an operation, from VimAdapter.queueOperation: push the tagged
argument tuple with a timestamp onto the end of the queue.  The source
additionally starts the drain loop when it is not already running; the
returned boolean records whether it would be started here. -/
def queueOperation (st : AdapterQueueState) (type : OperationType)
    (args : List (Option String)) (now : Nat) : AdapterQueueState × Bool :=
  ({ st with operationQueue :=
      st.operationQueue ++ [{ type, args, timestamp := now }] },
   !st.isProcessingQueue)

/-- The map binding primitive, from VimAdapter.map: when the backend is
available the backend call is made directly with any backend exception
swallowed and logged, leaving the queue untouched; when it is unavailable
the operation is queued instead.  The function is total: no path throws
to the caller.  Returns the queue state and the list of backend
invocations made now. -/
def adapterMap (avail : Bool) (st : AdapterQueueState)
    (lhs rhs : String) (mode : Option VimMode) (now : Nat) :
    AdapterQueueState × List (List (Option String)) :=
  let modeStr := modeToString mode
  if avail then (st, [[some lhs, some rhs, modeStr]])
  else ((queueOperation st .map [some lhs, some rhs, modeStr] now).1, [])

/-- Execute one popped operation, from VimAdapter.executeOperation: probe
the backend once more; when it has become unavailable push the operation
back onto the front of the queue, otherwise dispatch it to the backend
(any backend exception is swallowed and logged, so the operation counts
as executed).  Takes the queue as it is after the pop and the list of
operations executed so far. -/
def executeOperation (avail : Bool) (op : QueuedOperation)
    (queue executed : List QueuedOperation) :
    List QueuedOperation × List QueuedOperation :=
  if avail then (queue, executed ++ [op])
  else (op :: queue, executed)

/-- Result of a drain run: the next probe index, the remaining queue and
the operations executed, in order. -/
structure DrainResult where
  probeIdx : Nat
  queue : List QueuedOperation
  executed : List QueuedOperation
  deriving DecidableEq, Repr

/-- Inner drain loop of VimAdapter.processQueue: while the queue is
non-empty, probe availability; on an available probe pop the front
operation and run executeOperation, which probes once more; on an
unavailable probe exit back to the outer loop.  The availability schedule
is indexed by probe count; the fuel only bounds the number of loop
iterations of the model. -/
def innerDrain (avail : Nat → Bool) :
    Nat → Nat → List QueuedOperation → List QueuedOperation → DrainResult
  | _, n, [], executed => { probeIdx := n, queue := [], executed }
  | 0, n, queue, executed => { probeIdx := n, queue, executed }
  | fuel + 1, n, op :: rest, executed =>
    if avail n then
      let (q2, ex2) := executeOperation (avail (n + 1)) op rest executed
      innerDrain avail fuel (n + 2) q2 ex2
    else { probeIdx := n + 1, queue := op :: rest, executed }

/-- Outer drain loop of VimAdapter.processQueue: while the queue is
non-empty and the retry budget remains, probe availability; increment the
retry counter and sleep on an unavailable probe, reset it to zero and run
the inner drain on an available one.  The fuel only bounds the number of
iterations of the model. -/
def outerDrain (avail : Nat → Bool) (maxRetries : Nat) :
    Nat → Nat → List QueuedOperation → List QueuedOperation → Nat → DrainResult
  | 0, n, queue, executed, _ => { probeIdx := n, queue, executed }
  | fuel + 1, n, queue, executed, retries =>
    if queue.isEmpty || decide (maxRetries ≤ retries) then
      { probeIdx := n, queue, executed }
    else if !avail n then
      outerDrain avail maxRetries fuel (n + 1) queue executed (retries + 1)
    else
      let r := innerDrain avail fuel (n + 1) queue executed
      outerDrain avail maxRetries fuel r.probeIdx r.queue r.executed 0

/-- Outcome of one waitForReady call. -/
inductive WaitOutcome
  | resolvedImmediately
  | resolvedAtAttempt (k : Nat)
  | timedOut
  deriving DecidableEq, Repr

/-- Notifications the adapter emits for readiness changes. -/
inductive AdapterNote
  | ready
  | unavailable (reason : String)
  deriving DecidableEq, Repr

/-- The checkReady polling callback of VimAdapter.waitForReady: increment
the attempt counter, resolve when the availability probe succeeds, reject
after the probe fails with the counter at or past the attempt bound,
otherwise schedule the next poll.  The availability schedule is indexed
by attempt number, and the fuel only bounds the iterations of the
model. -/
def checkReadyLoop (avail : Nat → Bool) (maxAttempts : Nat) :
    Nat → Nat → WaitOutcome
  | 0, _ => .timedOut
  | fuel + 1, attempts =>
    let a := attempts + 1
    if avail a then .resolvedAtAttempt a
    else if maxAttempts ≤ a then .timedOut
    else checkReadyLoop avail maxAttempts fuel a

/-- One waitForReady run, from VimAdapter.waitForReady: resolve
immediately (emitting the ready notification) when the backend is already
available; otherwise poll with the attempt bound set to the ceiling of
the ready timeout over the retry interval, emitting ready on success and
the unavailable timeout notification on exhaustion.  The schedule index
zero is the initial availability probe and index k is the probe of
attempt k. -/
def waitForReadyRun (avail : Nat → Bool) (readyTimeout retryInterval : Nat) :
    WaitOutcome × List AdapterNote :=
  if avail 0 then (.resolvedImmediately, [.ready])
  else
    let maxAttempts := (readyTimeout + retryInterval - 1) / retryInterval
    match checkReadyLoop avail maxAttempts (maxAttempts + 1) 0 with
    | .resolvedAtAttempt k => (.resolvedAtAttempt k, [.ready])
    | _ => (.timedOut, [.unavailable "Timeout waiting for Vim API"])

/-- Promise bookkeeping of waitForReady: the pending promise identity, if
a wait is in flight, and how many pollers were ever started. -/
structure WaitState where
  readyPromise : Option Nat := none
  pollersStarted : Nat := 0
  deriving DecidableEq, Repr

/-- Entry logic of VimAdapter.waitForReady with respect to the shared
pending promise: when the backend is available the call resolves without
any promise bookkeeping; when a wait is already in flight the existing
pending promise is returned unchanged and no new poller starts; otherwise
a fresh promise is created and one poller starts.  Returns the new state
and the identity of the promise handed to the caller, none meaning an
immediately resolved one. -/
def waitForReadyEntry (availNow : Bool) (st : WaitState) :
    WaitState × Option Nat :=
  if availNow then (st, none)
  else
    match st.readyPromise with
    | some p => (st, some p)
    | none =>
      ({ readyPromise := some st.pollersStarted
         pollersStarted := st.pollersStarted + 1 }, some st.pollersStarted)

/-- A direct obsidian command binding definition, from the
ObmapDefinition interface. -/
structure ObmapDefinition where
  key : String
  commandId : String
  mode : VimMode
  lineNumber : Nat
  deriving DecidableEq, Repr

/-- An ex alias definition, from the ExmapDefinition interface. -/
structure ExmapDefinition where
  name : String
  commandId : String
  lineNumber : Nat
  deriving DecidableEq, Repr

/-- Adapter calls the loader makes directly while clearing applied obmap
and exmap bindings. -/
inductive LoaderAdapterCall
  | unmapKey (key : String) (mode : VimMode)
  | defineExEmpty (name : String)
  deriving DecidableEq, Repr

/-- Cross-component state the VimrcLoader coordinates: the parser's
variable table, the mapping store, the applier, the let handler's
variable definition table, the obmap and exmap provider definition
tables, the loader's own lists of applied obmap and exmap bindings, and
its direct adapter call trace. -/
structure LoaderState where
  parserVars : Vars
  store : MappingStore
  applier : ApplierState
  letVars : List (String × String)
  obmapDefs : List ObmapDefinition
  exmapDefs : List (String × ExmapDefinition)
  appliedObmaps : List (String × VimMode)
  appliedExmaps : List String
  adapterCalls : List LoaderAdapterCall := []
  deriving Repr

/-- Clear the applied obmap bindings, from VimrcLoader.clearAppliedObmaps:
unmap each recorded key and mode on the adapter, then empty the list. -/
def clearAppliedObmaps (st : LoaderState) : LoaderState :=
  { st with
    adapterCalls := st.adapterCalls ++
      st.appliedObmaps.map (fun p => LoaderAdapterCall.unmapKey p.1 p.2)
    appliedObmaps := [] }

/-- Clear the applied exmap bindings, from VimrcLoader.clearAppliedExmaps:
redefine each ex name with an empty callback, then empty the list. -/
def clearAppliedExmaps (st : LoaderState) : LoaderState :=
  { st with
    adapterCalls := st.adapterCalls ++
      st.appliedExmaps.map LoaderAdapterCall.defineExEmpty
    appliedExmaps := [] }

/-- Reset the providers, from VimrcLoader.resetProviders: the obmap
provider's cleanup empties its definition list, the exmap provider's
cleanup empties its definition table.  No other component is reached. -/
def resetProviders (st : LoaderState) : LoaderState :=
  { st with obmapDefs := [], exmapDefs := [] }

/-- The teardown phase of VimrcLoader.reload, everything it does before
calling load again: unapply all tracked mappings, clear the mapping
store, clear the applied obmap and exmap bindings, and reset the
providers.  Neither the parser's variable table nor the let handler's
variable definitions are touched anywhere in this sequence. -/
def reloadTeardown (st : LoaderState) : LoaderState :=
  let st1 := { st with applier := unapplyAll st.applier }
  let st2 := { st1 with store := storeClear st1.store }
  resetProviders (clearAppliedExmaps (clearAppliedObmaps st2))

/-!
Concrete instances used by the example-level theorems below.
-/

/-- Vimrc content of the leader substitution scenario. -/
def c4content : String := "let mapleader = \",\"\nnmap <leader>w :w<CR>"

/-- Placeholder command used as the default of a list access. -/
def defaultCmd : ParsedCommand :=
  { type := .UNKNOWN, args := [], lineNumber := 0, raw := "" }

/-- Vimrc content of the quoted space assignment scenario. -/
def c6content : String := "let mapleader = \" \""

/-- Vimrc content of the upper-case leader placeholder scenario. -/
def c5content : String := "let mapleader = \",\"\nnmap <Leader>w x"

/-- A mapping present before a reload in the stale variable scenario. -/
def c1mapping : KeyMapping :=
  { id := "mapping_1", source := ",w", target := ":w<CR>", mode := .normal,
    recursive := true, lineNumber := 2, createdAt := 0, status := .applied }

/-- Loader state before a reload, holding a parsed leader variable, one
stored and applied mapping, and a let handler definition. -/
def c1state : LoaderState :=
  { parserVars := [("leader", ","), ("mapleader", ",")]
    store := { mappings := [c1mapping] }
    applier := { appliedMappings := [(getMappingKey ",w" .normal, c1mapping)] }
    letVars := [("mapleader", ",")]
    obmapDefs := []
    exmapDefs := []
    appliedObmaps := []
    appliedExmaps := [] }

/-- An applied mapping used in the failing unapply scenario. -/
def c9mapping : KeyMapping :=
  { id := "mapping_2", source := "x", target := "y", mode := .normal,
    recursive := false, lineNumber := 1, createdAt := 0, status := .applied }

/-- Applier state tracking that mapping. -/
def c9applier : ApplierState :=
  { appliedMappings := [(getMappingKey "x" .normal, c9mapping)] }

/-- First queued operation of the drain scenario. -/
def c2op1 : QueuedOperation :=
  { type := .map, args := [some "a", some "b", none], timestamp := 0 }

/-- Second queued operation of the drain scenario. -/
def c2op2 : QueuedOperation :=
  { type := .map, args := [some "c", some "d", some "normal"], timestamp := 1 }

/-- The already applied mapping of the conflict scenario. -/
def c3existing : KeyMapping :=
  { id := "mapping_1", source := "x", target := "y", mode := .normal,
    recursive := true, lineNumber := 1, createdAt := 0, status := .applied }

/-- The later mapping sharing source and mode of the conflict scenario. -/
def c3new : KeyMapping :=
  { id := "mapping_2", source := "x", target := "z", mode := .normal,
    recursive := true, lineNumber := 2, createdAt := 1, status := .pending }

/-- Applier state tracking the first mapping of the conflict scenario. -/
def c3state : ApplierState :=
  { appliedMappings := [(getMappingKey "x" .normal, c3existing)] }

/-- A handler whose handle always throws, for the route isolation
scenario. -/
def c7handler : Handler :=
  { supportedTypes := [.NMAP]
    canHandle := fun _ => true
    handleResult := fun _ => .error "handler failure" }

/-- The routed command of the route isolation scenario. -/
def c7cmd : ParsedCommand :=
  { type := .NMAP, args := ["j", "gj"], lineNumber := 1, raw := "nmap j gj" }

/-- Registry with the throwing handler registered for nmap. -/
def c7registry : RegistryState := { handlers := [(.NMAP, [c7handler])] }

/-- A mapping stored with mode all in the unmap scoping scenario. -/
def c10all : KeyMapping :=
  { id := "mapping_1", source := "x", target := "y", mode := .all,
    recursive := true, lineNumber := 1, createdAt := 0, status := .pending }

/-- A mapping stored with normal mode and the same source. -/
def c10normal : KeyMapping :=
  { id := "mapping_2", source := "x", target := "z", mode := .normal,
    recursive := true, lineNumber := 2, createdAt := 1, status := .pending }

/-- Store holding both mappings of the unmap scoping scenario. -/
def c10store : MappingStore := { mappings := [c10all, c10normal] }

/-- The nunmap command of the unmap scoping scenario. -/
def c10cmd : ParsedCommand :=
  { type := .NUNMAP, args := ["x"], lineNumber := 3, raw := "nunmap x" }

/-!
Helper lemmas about association lists, the drain loops, the readiness
poll loop, and the comment scanner.
-/

/-- Lookup of a cons whose head key matches. -/
theorem alistGet_cons_of_pos {α : Type} (p : String × α) (l : List (String × α))
    (k : String) (h : (p.1 == k) = true) : alistGet (p :: l) k = some p.2 := by
  simp [alistGet, List.find?, h]

/-- Lookup of a cons whose head key differs. -/
theorem alistGet_cons_of_neg {α : Type} (p : String × α) (l : List (String × α))
    (k : String) (h : (p.1 == k) = false) : alistGet (p :: l) k = alistGet l k := by
  simp [alistGet, List.find?, h]

/-- Lookup after deletion of the same key yields nothing. -/
theorem alistGet_del {α : Type} (l : List (String × α)) (k : String) :
    alistGet (alistDel l k) k = none := by
  induction l with
  | nil => rfl
  | cons p rest ih =>
    by_cases h : p.1 = k
    · have hd : alistDel (p :: rest) k = alistDel rest k := by
        simp [alistDel, List.filter_cons, h]
      rw [hd]
      exact ih
    · have hd : alistDel (p :: rest) k = p :: alistDel rest k := by
        simp [alistDel, List.filter_cons, h]
      rw [hd, alistGet_cons_of_neg _ _ _ (by simp [h])]
      exact ih

/-- Lookup after an in-place overwrite of a present key. -/
theorem alistGet_map_set {α : Type} (l : List (String × α)) (k : String) (v : α) :
    l.any (fun p => p.1 == k) = true →
    alistGet (l.map (fun p => if p.1 == k then (k, v) else p)) k = some v := by
  induction l with
  | nil =>
    intro hany
    simp at hany
  | cons p rest ih =>
    intro hany
    rw [List.map_cons]
    by_cases h : p.1 = k
    · have hc : (p.1 == k) = true := by simp [h]
      rw [if_pos hc, alistGet_cons_of_pos _ _ _ (by simp)]
    · have hc : ¬((p.1 == k) = true) := by simp [h]
      have hany2 : rest.any (fun q => q.1 == k) = true := by
        simpa [List.any_cons, h] using hany
      rw [if_neg hc, alistGet_cons_of_neg _ _ _ (by simp [h])]
      exact ih hany2

/-- Lookup after appending a binding for an absent key. -/
theorem alistGet_append_new {α : Type} (l : List (String × α)) (k : String) (v : α) :
    l.any (fun p => p.1 == k) = false →
    alistGet (l ++ [(k, v)]) k = some v := by
  induction l with
  | nil =>
    intro _
    rw [List.nil_append, alistGet_cons_of_pos _ _ _ (by simp)]
  | cons p rest ih =>
    intro hnone
    have h1 : (p.1 == k) = false ∧ rest.any (fun q => q.1 == k) = false := by
      simpa [List.any_cons, Bool.or_eq_false_iff] using hnone
    rw [List.cons_append, alistGet_cons_of_neg _ _ _ h1.1]
    exact ih h1.2

/-- Lookup after a Map-style set always finds the new value. -/
theorem alistGet_set_self {α : Type} (l : List (String × α)) (k : String) (v : α) :
    alistGet (alistSet l k v) k = some v := by
  by_cases hany : l.any (fun p => p.1 == k) = true
  · have hs : alistSet l k v = l.map (fun p => if p.1 == k then (k, v) else p) := by
      simp [alistSet, hany]
    rw [hs]
    exact alistGet_map_set l k v hany
  · have hfalse : l.any (fun p => p.1 == k) = false := by
      cases hb : l.any (fun p => p.1 == k) with
      | true => exact absurd hb hany
      | false => rfl
    have hs : alistSet l k v = l ++ [(k, v)] := by
      simp [alistSet, hfalse]
    rw [hs]
    exact alistGet_append_new l k v hfalse

/-- The inner drain loop neither loses, duplicates nor reorders
operations: its executed list followed by its remaining queue is the
original executed list followed by the original queue, under every
availability schedule. -/
theorem innerDrain_exec_append (avail : Nat → Bool) :
    ∀ fuel n q ex,
      (innerDrain avail fuel n q ex).executed ++ (innerDrain avail fuel n q ex).queue =
        ex ++ q := by
  intro fuel
  induction fuel with
  | zero =>
    intro n q ex
    cases q <;> simp [innerDrain]
  | succ f ih =>
    intro n q ex
    cases q with
    | nil => simp [innerDrain]
    | cons op rest =>
      by_cases ha : avail n
      · by_cases hb : avail (n + 1)
        · have h := ih (n + 2) rest (ex ++ [op])
          simp [innerDrain, executeOperation, ha, hb]
          simpa [List.append_assoc] using h
        · have h := ih (n + 2) (op :: rest) ex
          simp [innerDrain, executeOperation, ha, hb]
          simpa using h
      · simp [innerDrain, ha]

/-- The outer drain loop preserves the same no-loss no-reorder
invariant. -/
theorem outerDrain_exec_append (avail : Nat → Bool) (maxRetries : Nat) :
    ∀ fuel n q ex r,
      (outerDrain avail maxRetries fuel n q ex r).executed ++
        (outerDrain avail maxRetries fuel n q ex r).queue = ex ++ q := by
  intro fuel
  induction fuel with
  | zero => intro n q ex r; simp [outerDrain]
  | succ f ih =>
    intro n q ex r
    by_cases hq : q.isEmpty
    · simp [outerDrain, hq]
    · by_cases hr : maxRetries ≤ r
      · simp [outerDrain, hq, hr]
      · by_cases ha : avail n
        · have hinner := innerDrain_exec_append avail f (n + 1) q ex
          have houter := ih (innerDrain avail f (n + 1) q ex).probeIdx
            (innerDrain avail f (n + 1) q ex).queue
            (innerDrain avail f (n + 1) q ex).executed 0
          simp [outerDrain, hq, hr, ha]
          rw [houter]
          exact hinner
        · have h := ih (n + 1) q ex (r + 1)
          simp [outerDrain, hq, hr, ha]
          exact h

/-- With the backend available at every probe from the loop's position
on, the inner drain empties the queue and executes everything in
order. -/
theorem innerDrain_all_avail (avail : Nat → Bool) :
    ∀ q fuel n ex, (∀ m, n ≤ m → avail m = true) → q.length ≤ fuel →
      (innerDrain avail fuel n q ex).queue = [] ∧
      (innerDrain avail fuel n q ex).executed = ex ++ q := by
  intro q
  induction q with
  | nil =>
    intro fuel n ex _ _
    cases fuel <;> simp [innerDrain]
  | cons op rest ih =>
    intro fuel n ex hav hfuel
    cases fuel with
    | zero => simp at hfuel
    | succ f =>
      have ha : avail n = true := hav n (le_refl n)
      have hb : avail (n + 1) = true := hav (n + 1) (by omega)
      have hfuel2 : rest.length ≤ f := by
        simp [List.length_cons] at hfuel
        omega
      have hrec := ih f (n + 2) (ex ++ [op]) (fun m hm => hav m (by omega)) hfuel2
      simp [innerDrain, executeOperation, ha, hb]
      refine ⟨hrec.1, ?_⟩
      rw [hrec.2]
      simp

/-- The outer drain loop exits immediately on an empty queue. -/
theorem outerDrain_empty (avail : Nat → Bool) (maxRetries fuel n : Nat)
    (ex : List QueuedOperation) (r : Nat) :
    outerDrain avail maxRetries fuel n [] ex r =
      { probeIdx := n, queue := [], executed := ex } := by
  cases fuel <;> simp [outerDrain]

/-- When the backend is unavailable for the first probes and then stays
available, with the unavailable stretch inside the retry budget and
enough fuel, the outer drain executes the whole queue in order. -/
theorem outerDrain_full (avail : Nat → Bool) (maxRetries : Nat) :
    ∀ k fuel n q ex r,
      (∀ m, m < k → avail (n + m) = false) →
      (∀ m, k ≤ m → avail (n + m) = true) →
      r + k < maxRetries →
      k + q.length + 1 ≤ fuel →
      (outerDrain avail maxRetries fuel n q ex r).queue = [] ∧
      (outerDrain avail maxRetries fuel n q ex r).executed = ex ++ q := by
  intro k
  induction k with
  | zero =>
    intro fuel n q ex r h1 h2 h3 h4
    cases q with
    | nil =>
      rw [outerDrain_empty]
      exact ⟨rfl, by simp⟩
    | cons op rest =>
      cases fuel with
      | zero => omega
      | succ f =>
        have ha : avail n = true := by simpa using h2 0 (le_refl 0)
        have hq : ((op :: rest).isEmpty) = false := rfl
        have hr : ¬(maxRetries ≤ r) := by omega
        have hav2 : ∀ m, n + 1 ≤ m → avail m = true := by
          intro m hm
          have h := h2 (m - n) (by omega)
          rwa [Nat.add_sub_cancel' (by omega : n ≤ m)] at h
        have hfuel2 : (op :: rest).length ≤ f := by
          simp [List.length_cons] at h4 ⊢
          omega
        have hinner := innerDrain_all_avail avail (op :: rest) f (n + 1) ex hav2 hfuel2
        simp [outerDrain, hq, hr, ha]
        rw [hinner.1, hinner.2, outerDrain_empty]
        exact ⟨rfl, rfl⟩
  | succ j ih =>
    intro fuel n q ex r h1 h2 h3 h4
    cases fuel with
    | zero => omega
    | succ f =>
      cases q with
      | nil =>
        rw [outerDrain_empty]
        exact ⟨rfl, by simp⟩
      | cons op rest =>
        have ha : avail n = false := by simpa using h1 0 (by omega)
        have hq : ((op :: rest).isEmpty) = false := rfl
        have hr : ¬(maxRetries ≤ r) := by omega
        have h1b : ∀ m, m < j → avail (n + 1 + m) = false := by
          intro m hm
          have h := h1 (m + 1) (by omega)
          rwa [show n + (m + 1) = n + 1 + m by omega] at h
        have h2b : ∀ m, j ≤ m → avail (n + 1 + m) = true := by
          intro m hm
          have h := h2 (m + 1) (by omega)
          rwa [show n + (m + 1) = n + 1 + m by omega] at h
        have h4b : j + (op :: rest).length + 1 ≤ f := by
          simp [List.length_cons] at h4 ⊢
          omega
        have hrec := ih f (n + 1) (op :: rest) ex (r + 1) h1b h2b (by omega) h4b
        simp [outerDrain, hq, hr, ha]
        exact hrec

/-- The poll loop resolves at the first attempt whose probe succeeds. -/
theorem checkReadyLoop_resolve (avail : Nat → Bool) (maxAttempts : Nat) :
    ∀ fuel attempts k,
      attempts < k → k ≤ maxAttempts → k - attempts ≤ fuel →
      (∀ j, attempts < j → j < k → avail j = false) → avail k = true →
      checkReadyLoop avail maxAttempts fuel attempts = .resolvedAtAttempt k := by
  intro fuel
  induction fuel with
  | zero =>
    intro attempts k h1 h2 h3 h4 h5
    omega
  | succ f ih =>
    intro attempts k h1 h2 h3 h4 h5
    by_cases hk : attempts + 1 = k
    · subst hk
      simp [checkReadyLoop, h5]
    · have hfail : avail (attempts + 1) = false := h4 (attempts + 1) (by omega) (by omega)
      have hlt : ¬(maxAttempts ≤ attempts + 1) := by omega
      simp [checkReadyLoop, hfail, hlt]
      exact ih (attempts + 1) k (by omega) h2 (by omega)
        (fun j hj1 hj2 => h4 j (by omega) hj2) h5

/-- The poll loop rejects after the attempt bound when every probe
fails. -/
theorem checkReadyLoop_timeout (avail : Nat → Bool) (maxAttempts : Nat) :
    ∀ fuel attempts,
      attempts < maxAttempts → maxAttempts - attempts ≤ fuel →
      (∀ j, attempts < j → j ≤ maxAttempts → avail j = false) →
      checkReadyLoop avail maxAttempts fuel attempts = .timedOut := by
  intro fuel
  induction fuel with
  | zero =>
    intro attempts h1 h2 h3
    omega
  | succ f ih =>
    intro attempts h1 h2 h3
    have hfail : avail (attempts + 1) = false := h3 (attempts + 1) (by omega) (by omega)
    by_cases hend : maxAttempts ≤ attempts + 1
    · simp [checkReadyLoop, hfail, hend]
    · simp [checkReadyLoop, hfail, hend]
      exact ih (attempts + 1) (by omega) (by omega)
        (fun j hj1 hj2 => h3 j (by omega) hj2)

/-- Membership in the fold of id-keyed deletions: an element survives
exactly when it was present and its id differs from every removed id. -/
theorem mem_foldl_filter_id :
    ∀ (toRemove start : List KeyMapping) (x : KeyMapping),
      x ∈ toRemove.foldl (fun acc m => acc.filter (fun y => y.id != m.id)) start ↔
        x ∈ start ∧ ∀ m ∈ toRemove, x.id ≠ m.id := by
  intro toRemove
  induction toRemove with
  | nil =>
    intro start x
    simp
  | cons m rest ih =>
    intro start x
    rw [List.foldl_cons, ih]
    simp only [List.mem_filter, bne_iff_ne, List.forall_mem_cons, ne_eq,
      decide_not, Bool.not_eq_eq_eq_not, Bool.not_true, decide_eq_false_iff_not]
    constructor
    · rintro ⟨⟨hx, hne⟩, hall⟩
      exact ⟨hx, hne, hall⟩
    · rintro ⟨hx, hne, hall⟩
      exact ⟨⟨hx, hne⟩, hall⟩

/-- A line without quote characters never contains an inline comment
start: the scanner returns none from any position and quote state. -/
theorem findCommentStart_no_quote :
    ∀ (rest prefixRev : List Char),
      (∀ c ∈ rest, c ≠ dquote ∧ c ≠ squote) →
      findCommentStart prefixRev rest false none = none := by
  intro rest
  induction rest with
  | nil =>
    intro prefixRev _
    rfl
  | cons c more ih =>
    intro prefixRev h
    have hc := h c (List.mem_cons_self c more)
    have h1 : (c == dquote) = false := by simp [hc.1]
    have h2 : (c == squote) = false := by simp [hc.2]
    simp [findCommentStart, h1, h2]
    exact ih (c :: prefixRev) (fun d hd => h d (List.mem_cons_of_mem c hd))

/-- On a quote-free line, inline comment removal is just trimming. -/
theorem removeInlineComment_no_quote (line : String)
    (h : ∀ c ∈ line.data, c ≠ dquote ∧ c ≠ squote) :
    removeInlineComment line = trimStr line := by
  unfold removeInlineComment
  rw [findCommentStart_no_quote line.data [] h]

/-- On a quote-free line, the parsed arguments are exactly the
whitespace-split tokens after the keyword, each passed independently
through variable substitution. -/
theorem parseLine_args_no_quote (vars : Vars) (line : String) (n : Nat)
    (h : ∀ c ∈ line.data, c ≠ dquote ∧ c ≠ squote) :
    (parseLine vars line n).args =
      ((splitWhitespace (trimStr line)).tail).map (substituteVariables vars) := by
  unfold parseLine
  rw [removeInlineComment_no_quote line h]
  by_cases hdata : (trimStr line).data = []
  · simp [hdata, splitWhitespace, tokensWSAux]
  · simp [hdata]

/-!
Claim theorems.
-/

/-- Claim C1, counterexample: the claim says every parser variable entry
present before reload is gone when the fresh parse begins, but after the
reload teardown (the complete pre-load phase of reload) the leader
variable stored before is still present in the parser's table, even
though the mapping store was emptied. -/
theorem reload_stale_leader_cex :
    alistGet c1state.parserVars "leader" = some "," ∧
    alistGet (reloadTeardown c1state).parserVars "leader" = some "," ∧
    (reloadTeardown c1state).store.mappings = [] := by
  refine ⟨by decide, by decide, rfl⟩

/-- Claim C1, amended: the reload teardown empties the mapping store, the
applier tracking table, the obmap and exmap definition tables and the
applied obmap and exmap lists, but it leaves the parser's variable table
and the let handler's variable definitions exactly as they were, so those
entries are still present when the fresh parse begins. -/
theorem reload_preserves_parser_variables (st : LoaderState) :
    (reloadTeardown st).store.mappings = [] ∧
    (reloadTeardown st).applier.appliedMappings = [] ∧
    (reloadTeardown st).obmapDefs = [] ∧
    (reloadTeardown st).exmapDefs = [] ∧
    (reloadTeardown st).appliedObmaps = [] ∧
    (reloadTeardown st).appliedExmaps = [] ∧
    (reloadTeardown st).parserVars = st.parserVars ∧
    (reloadTeardown st).letVars = st.letVars :=
  ⟨rfl, rfl, rfl, rfl, rfl, rfl, rfl, rfl⟩

/-- Claim C2: a map call made while the backend is unavailable does not
throw (the primitive is total) and appends the operation to the end of
the queue; under every availability schedule the drain loop's executed
list followed by its remaining queue equals the original queue, so
operations are executed at most once each, in FIFO order of enqueue, and
none is lost; when the backend becomes available within the retry budget
and stays available, the whole queue is executed exactly once in order;
and when the backend disappears between the pop and the execution of an
operation, that operation is pushed back onto the front of the queue. -/
theorem adapter_queue_c2 :
    (∀ (st : AdapterQueueState) (lhs rhs : String) (mode : Option VimMode) (now : Nat),
      (adapterMap false st lhs rhs mode now).1.operationQueue =
        st.operationQueue ++
          [{ type := .map, args := [some lhs, some rhs, modeToString mode],
             timestamp := now }]) ∧
    (∀ (avail : Nat → Bool) (maxRetries fuel n : Nat)
        (q ex : List QueuedOperation) (r : Nat),
      (outerDrain avail maxRetries fuel n q ex r).executed ++
        (outerDrain avail maxRetries fuel n q ex r).queue = ex ++ q) ∧
    (∀ (avail : Nat → Bool) (maxRetries k : Nat)
        (q ex : List QueuedOperation) (fuel : Nat),
      (∀ m, m < k → avail m = false) → (∀ m, k ≤ m → avail m = true) →
      k < maxRetries → k + q.length + 1 ≤ fuel →
      (outerDrain avail maxRetries fuel 0 q ex 0).queue = [] ∧
      (outerDrain avail maxRetries fuel 0 q ex 0).executed = ex ++ q) ∧
    (∀ (op : QueuedOperation) (q ex : List QueuedOperation),
      executeOperation false op q ex = (op :: q, ex)) := by
  refine ⟨?_, ?_, ?_, ?_⟩
  · intro st lhs rhs mode now
    rfl
  · intro avail maxRetries fuel n q ex r
    exact outerDrain_exec_append avail maxRetries fuel n q ex r
  · intro avail maxRetries k q ex fuel h1 h2 h3 h4
    have h1b : ∀ m, m < k → avail (0 + m) = false := by
      intro m hm
      simpa using h1 m hm
    have h2b : ∀ m, k ≤ m → avail (0 + m) = true := by
      intro m hm
      simpa using h2 m hm
    exact outerDrain_full avail maxRetries k fuel 0 q ex 0 h1b h2b (by omega) h4
  · intro op q ex
    rfl

/-- Witness for claim C2: a concrete enqueue while unavailable appends to
the queue, and a concrete drain whose backend comes up at the third probe
executes both queued operations in order and empties the queue. -/
theorem adapter_queue_c2_witness :
    (adapterMap false { operationQueue := [c2op1] } "c" "d" (some .normal) 1).1.operationQueue =
      [c2op1, c2op2] ∧
    (outerDrain (fun n => decide (2 ≤ n)) 50 6 0 [c2op1, c2op2] [] 0).queue = [] ∧
    (outerDrain (fun n => decide (2 ≤ n)) 50 6 0 [c2op1, c2op2] [] 0).executed =
      [c2op1, c2op2] := by
  have h := adapter_queue_c2
  have h1 := h.1 { operationQueue := [c2op1] } "c" "d" (some .normal) 1
  have h3 := h.2.2.1 (fun n => decide (2 ≤ n)) 50 2 [c2op1, c2op2] [] 6
    (fun m hm => by simp; omega)
    (fun m hm => by simp; omega)
    (by omega) (by simp)
  refine ⟨?_, h3.1, by simpa using h3.2⟩
  simpa [c2op1, c2op2] using h1

/-- Claim C3: when apply is called for a mapping whose source and mode
pair is tracked with a different id, exactly one conflict event with
override resolution fires followed by the applied event, the backend
binding call is still made, the tracking table afterwards maps the pair
to the new mapping, and the new mapping's status becomes applied. -/
theorem apply_conflict_last_write_wins (st : ApplierState) (m existing : KeyMapping)
    (now : Nat)
    (hex : alistGet st.appliedMappings (getMappingKey m.source m.mode) = some existing)
    (hid : existing.id ≠ m.id) :
    (applyMapping st m (.ok ()) now).1.events =
      st.events ++ [.conflict existing m,
        .applied { m with status := .applied, appliedAt := some now }] ∧
    (applyMapping st m (.ok ()) now).1.backendCalls =
      st.backendCalls ++ [if m.recursive then .mapCall m.source m.target m.mode
                          else .noremapCall m.source m.target m.mode] ∧
    alistGet (applyMapping st m (.ok ()) now).1.appliedMappings
      (getMappingKey m.source m.mode) =
      some { m with status := .applied, appliedAt := some now } ∧
    (applyMapping st m (.ok ()) now).2.1.status = .applied := by
  have hbne : (existing.id != m.id) = true := by simpa [bne_iff_ne] using hid
  refine ⟨?_, ?_, ?_, ?_⟩ <;>
    simp [applyMapping, checkConflict, hex, hbne, alistGet_set_self]

/-- Witness for claim C3: the concrete conflict scenario fires exactly
the conflict and applied events and ends with applied status. -/
theorem apply_conflict_last_write_wins_witness :
    (applyMapping c3state c3new (.ok ()) 5).1.events =
      [.conflict c3existing c3new,
       .applied { c3new with status := .applied, appliedAt := some 5 }] ∧
    (applyMapping c3state c3new (.ok ()) 5).2.1.status = .applied := by
  have h := apply_conflict_last_write_wins c3state c3new c3existing 5
    (by decide) (by decide)
  exact ⟨h.1, h.2.2.2⟩

/-- Claim C4: parsing the leader assignment line followed by the nmap
line and routing the nmap command to the mapping handler stores exactly
one mapping whose source is the comma followed by w and whose target is
the write command with the CR token passed through verbatim. -/
theorem leader_substitution_pipeline :
    (parse [] c4content).commands.length = 2 ∧
    ((parse [] c4content).commands.getD 1 defaultCmd).type = .NMAP ∧
    ((mappingHandle {} { mappings := [] }
        ((parse [] c4content).commands.getD 1 defaultCmd) 0).2.mappings.map
      (fun m => (m.source, m.target))) = [(",w", ":w<CR>")] := by
  decide

/-- Claim C5, counterexample: the claim says variable names are matched
case-insensitively, so an upper-case leader placeholder would be replaced
once the leader is known; in fact, with the leader known, the upper-case
placeholder token survives parsing unchanged. -/
theorem parser_substitution_case_cex :
    alistGet (parse [] c5content).vars "leader" = some "," ∧
    (parse [] c5content).commands.map (fun c => c.args) =
      [["mapleader", "=", "\",\""], ["<Leader>w", "x"]] ∧
    substituteVariables (parse [] c5content).vars "<Leader>w" = "<Leader>w" ∧
    substituteVariables (parse [] c5content).vars "<Leader>w" ≠ ",w" := by
  decide

/-- Claim C5, amended: each whitespace-split argument token is
independently passed through variable substitution, but the variable name
match is exact and case-sensitive: the lower-case leader placeholder is
replaced while the capitalised one is left untouched.  The first conjunct
is stated for quote-free lines, where comment stripping reduces to
trimming. -/
theorem parser_substitution_case_sensitive (vars : Vars) (line : String) (n : Nat)
    (h : ∀ c ∈ line.data, c ≠ dquote ∧ c ≠ squote) :
    (parseLine vars line n).args =
      ((splitWhitespace (trimStr line)).tail).map (substituteVariables vars) ∧
    substituteVariables [("leader", ",")] "<leader>w" = ",w" ∧
    substituteVariables [("leader", ",")] "<Leader>w" = "<Leader>w" :=
  ⟨parseLine_args_no_quote vars line n h, by decide, by decide⟩

/-- Witness for claim C5: the amended statement at a concrete quote-free
nmap line. -/
theorem parser_substitution_case_sensitive_witness :
    (parseLine [("leader", ",")] "nmap <leader>w :w<CR>" 2).args =
      ((splitWhitespace (trimStr "nmap <leader>w :w<CR>")).tail).map
        (substituteVariables [("leader", ",")]) ∧
    substituteVariables [("leader", ",")] "<leader>w" = ",w" ∧
    substituteVariables [("leader", ",")] "<Leader>w" = "<Leader>w" :=
  parser_substitution_case_sensitive [("leader", ",")] "nmap <leader>w :w<CR>" 2
    (by decide)

/-- Claim C6: the line assigning a quoted single space to mapleader
parses as exactly one let command, with no error, no warning and no
unknown command, and the stored value of both mapleader and its bare
leader alias is the single space character with the quotes stripped. -/
theorem quoted_space_let_parse :
    (parse [] c6content).commands.map (fun c => c.type) = [.LET] ∧
    (parse [] c6content).errors = [] ∧
    (parse [] c6content).warnings = [] ∧
    alistGet (parse [] c6content).vars "mapleader" = some " " ∧
    alistGet (parse [] c6content).vars "leader" = some " " := by
  decide

/-- Claim C7: route is a total function, so a handler failure never
escapes it; when the selected handler's handle throws, exactly one
error-occurred event fires whose context names the command kind, and the
warning log is untouched; when the handler succeeds the state is
unchanged; and when no registered handler accepts the command, a warning
is logged and no error event is produced. -/
theorem route_error_isolation (st : RegistryState) (cmd : ParsedCommand) :
    (∀ h e,
      ((handlersFor st.handlers cmd.type).getD []).find? (fun x => x.canHandle cmd) = some h →
      h.handleResult cmd = .error e →
      (route st cmd).events = st.events ++
        [.errorOccurred e ("CommandRegistry.route: " ++ cmd.type.value)] ∧
      (route st cmd).logWarnings = st.logWarnings) ∧
    (∀ h,
      ((handlersFor st.handlers cmd.type).getD []).find? (fun x => x.canHandle cmd) = some h →
      h.handleResult cmd = .ok () →
      route st cmd = st) ∧
    (((handlersFor st.handlers cmd.type).getD []).find? (fun x => x.canHandle cmd) = none →
      (route st cmd).events = st.events ∧
      (route st cmd).logWarnings = st.logWarnings ++
        ["No handler found for command type: " ++ cmd.type.value]) := by
  refine ⟨?_, ?_, ?_⟩
  · intro h e hfind hres
    constructor <;> simp [route, hfind, hres]
  · intro h hfind hres
    simp [route, hfind, hres]
  · intro hfind
    constructor <;> simp [route, hfind]

/-- Witness for claim C7: routing through a registry whose nmap handler
always throws produces exactly one error event naming the nmap kind and
no warning. -/
theorem route_error_isolation_witness :
    (route c7registry c7cmd).events =
      [.errorOccurred "handler failure" ("CommandRegistry.route: " ++ CommandType.value .NMAP)] ∧
    (route c7registry c7cmd).logWarnings = [] := by
  have h := (route_error_isolation c7registry c7cmd).1 c7handler "handler failure" rfl rfl
  exact ⟨h.1, h.2⟩

/-- Claim C8: when the backend is already available waitForReady resolves
immediately and emits the ready notification; otherwise it polls for at
most the ceiling of the ready timeout over the retry interval attempts,
resolving with the ready notification at the first attempt whose probe
succeeds, and after the final failed attempt it rejects with the timeout
outcome and emits the unavailable notification; and a call made while a
wait is in flight returns the same pending promise without starting a new
poller. -/
theorem wait_for_ready_c8 :
    (∀ (avail : Nat → Bool) (t i : Nat), avail 0 = true →
      waitForReadyRun avail t i = (.resolvedImmediately, [.ready])) ∧
    (∀ (avail : Nat → Bool) (t i k : Nat), avail 0 = false →
      1 ≤ k → k ≤ (t + i - 1) / i →
      (∀ j, 1 ≤ j → j < k → avail j = false) → avail k = true →
      waitForReadyRun avail t i = (.resolvedAtAttempt k, [.ready])) ∧
    (∀ (avail : Nat → Bool) (t i : Nat), avail 0 = false →
      1 ≤ (t + i - 1) / i →
      (∀ j, 1 ≤ j → j ≤ (t + i - 1) / i → avail j = false) →
      waitForReadyRun avail t i =
        (.timedOut, [.unavailable "Timeout waiting for Vim API"])) ∧
    (∀ (st : WaitState) (p : Nat), st.readyPromise = some p →
      waitForReadyEntry false st = (st, some p)) := by
  refine ⟨?_, ?_, ?_, ?_⟩
  · intro avail t i h0
    simp [waitForReadyRun, h0]
  · intro avail t i k h0 h1 h2 h3 h4
    have hres := checkReadyLoop_resolve avail ((t + i - 1) / i)
      ((t + i - 1) / i + 1) 0 k (by omega) h2 (by omega)
      (fun j hj1 hj2 => h3 j (by omega) hj2) h4
    simp [waitForReadyRun, h0, hres]
  · intro avail t i h0 hmax hall
    have hres := checkReadyLoop_timeout avail ((t + i - 1) / i)
      ((t + i - 1) / i + 1) 0 (by omega) (by omega)
      (fun j hj1 hj2 => hall j (by omega) hj2)
    simp [waitForReadyRun, h0, hres]
  · intro st p hp
    simp [waitForReadyEntry, hp]

/-- Witness for claim C8: with the default timeout and interval and a
backend that appears at the third probe, the wait resolves at attempt
three with the ready notification, and a second call during an in-flight
wait returns the same pending promise. -/
theorem wait_for_ready_c8_witness :
    waitForReadyRun (fun n => decide (3 ≤ n)) 5000 100 =
      (.resolvedAtAttempt 3, [.ready]) ∧
    waitForReadyEntry false { readyPromise := some 7, pollersStarted := 9 } =
      ({ readyPromise := some 7, pollersStarted := 9 }, some 7) := by
  constructor
  · exact wait_for_ready_c8.2.1 (fun n => decide (3 ≤ n)) 5000 100 3
      (by simp) (by omega) (by norm_num)
      (fun j hj1 hj2 => by simp; omega) (by simp)
  · exact wait_for_ready_c8.2.2.2 { readyPromise := some 7, pollersStarted := 9 } 7 rfl

/-- Claim C9, counterexample: the claim says unapply sets the mapping's
status to removed even when the backend call fails; in fact, when the
backend unmap throws, the mapping's status keeps its prior value and is
not removed. -/
theorem unapply_status_cex :
    (unapplyMapping c9applier c9mapping (.error "backend unmap failure")).2.1.status ≠
      MappingStatus.removed ∧
    (unapplyMapping c9applier c9mapping (.error "backend unmap failure")).2.1.status =
      MappingStatus.applied := by
  decide

/-- Claim C9, amended: unapply removes the tracking entry for the
mapping's mode and source pair regardless of whether the backend call
succeeds or fails, the backend unmap call is always made, the backend
outcome is re-raised only after the tracking cleanup, the status becomes
removed on success, and on failure the mapping is returned unchanged, its
status untouched. -/
theorem unapply_tracking_cleanup (st : ApplierState) (m : KeyMapping)
    (r : Except String Unit) :
    alistGet (unapplyMapping st m r).1.appliedMappings
      (getMappingKey m.source m.mode) = none ∧
    (unapplyMapping st m r).2.2 = r ∧
    (unapplyMapping st m r).1.backendCalls =
      st.backendCalls ++ [.unmapCall m.source m.mode] ∧
    (r = .ok () → (unapplyMapping st m r).2.1.status = .removed) ∧
    (∀ e, r = .error e → (unapplyMapping st m r).2.1 = m) := by
  cases r with
  | ok u =>
    cases u
    refine ⟨?_, rfl, rfl, fun _ => rfl, ?_⟩
    · simpa [unapplyMapping] using
        alistGet_del st.appliedMappings (getMappingKey m.source m.mode)
    · intro e he
      exact absurd he (by simp)
  | error e =>
    refine ⟨?_, rfl, rfl, ?_, ?_⟩
    · simpa [unapplyMapping] using
        alistGet_del st.appliedMappings (getMappingKey m.source m.mode)
    · intro h
      exact absurd h (by simp)
    · intro e2 he
      rfl

/-- Witness for claim C9: the failing unapply scenario still clears the
tracking entry and leaves the mapping unchanged. -/
theorem unapply_tracking_cleanup_witness :
    alistGet (unapplyMapping c9applier c9mapping (.error "boom")).1.appliedMappings
      (getMappingKey c9mapping.source c9mapping.mode) = none ∧
    (unapplyMapping c9applier c9mapping (.error "boom")).2.1 = c9mapping := by
  have h := unapply_tracking_cleanup c9applier c9mapping (.error "boom")
  exact ⟨h.1, h.2.2.2.2 "boom" rfl⟩

/-- Claim C10: on a store whose ids are distinct, removeBySource with a
mode removes exactly the mappings whose source and mode both match by
strict equality, so an all-mode mapping with the same source survives a
mode-scoped unmap command such as nunmap. -/
theorem remove_by_source_mode_strict (st : MappingStore) (source : String)
    (mode : VimMode)
    (hid : (st.mappings.map (fun m => m.id)).Nodup) :
    (∀ x, x ∈ (storeRemoveBySource st source (some mode)).1.mappings ↔
      x ∈ st.mappings ∧ ¬(x.source = source ∧ x.mode = mode)) ∧
    (∀ (h : MappingHandlerState) (cmd : ParsedCommand) (x : KeyMapping),
      cmd.type = .NUNMAP → x ∈ st.mappings → x.mode = .all →
      x ∈ (handleUnmap h st cmd).mappings) := by
  have hinj : ∀ x ∈ st.mappings, ∀ y ∈ st.mappings, x.id = y.id → x = y :=
    fun x hx y hy hxy => List.inj_on_of_nodup_map hid hx hy hxy
  have hmain : ∀ (src : String) (mo : VimMode) (x : KeyMapping),
      x ∈ (storeRemoveBySource st src (some mo)).1.mappings ↔
        x ∈ st.mappings ∧ ¬(x.source = src ∧ x.mode = mo) := by
    intro src mo x
    rw [show (storeRemoveBySource st src (some mo)).1.mappings =
        (st.mappings.filter (removeMatches src (some mo))).foldl
          (fun acc m => acc.filter (fun y => y.id != m.id)) st.mappings from rfl]
    rw [mem_foldl_filter_id]
    constructor
    · rintro ⟨hx, hall⟩
      refine ⟨hx, ?_⟩
      rintro ⟨hs, hm⟩
      have hmatch : removeMatches src (some mo) x = true := by
        simp [removeMatches, hs, hm]
      have hxin : x ∈ st.mappings.filter (removeMatches src (some mo)) :=
        List.mem_filter.mpr ⟨hx, hmatch⟩
      exact hall x hxin rfl
    · rintro ⟨hx, hnot⟩
      refine ⟨hx, ?_⟩
      intro m hm hxm
      have hm2 := List.mem_filter.mp hm
      have hxeq : x = m := hinj x hx m hm2.1 hxm
      subst hxeq
      have := hm2.2
      simp [removeMatches] at this
      exact hnot this
  refine ⟨hmain source mode, ?_⟩
  intro h cmd x htype hx hmode
  by_cases hkey : cmd.args.head?.getD "" = ""
  · simp [handleUnmap, hkey]
    exact hx
  · have hmem := (hmain (parseKeySequence h.leaderKey (cmd.args.head?.getD ""))
        VimMode.normal x).mpr ⟨hx, by
      rintro ⟨_, hmx⟩
      rw [hmode] at hmx
      exact absurd hmx (by simp)⟩
    simp [handleUnmap, hkey, htype, getModeFromUnmapType]
    simpa [storeRemoveBySource] using hmem

/-- Witness for claim C10: in the concrete store, nunmap of the shared
source keeps the all-mode mapping while the normal-mode one is removed by
the scoped removeBySource. -/
theorem remove_by_source_mode_strict_witness :
    c10all ∈ (handleUnmap {} c10store c10cmd).mappings ∧
    ¬(c10normal ∈ (storeRemoveBySource c10store "x" (some .normal)).1.mappings) := by
  have h := remove_by_source_mode_strict c10store "x" .normal (by decide)
  refine ⟨h.2 {} c10cmd c10all rfl (by decide) rfl, fun hmem => ?_⟩
  have h2 := (h.1 c10normal).mp hmem
  exact h2.2 ⟨rfl, rfl⟩

end Vimrc
